import Mathlib

/-!
# ST7789 display driver (`src/st7789.c`): bus protocol and rasterisation

A shallow embedding of the driver.  SPI transfers are recorded in a log kept in
an explicit bus state; every driver function is a state transformer.  Machine
integers are `Int`/`Nat` with explicit reduction: `int` arithmetic wraps to 32
bits in two's complement, stores into `uint8_t`/`uint16_t` reduce modulo
`2^8`/`2^16`.  Delays (`sleep_us`) and the SPI clock polarity/phase are not
modelled.
-/

namespace ST7789

/-! ## Machine integers -/

/-- Result of an `int` operation: two's-complement wrap-around to 32 bits. -/
def wrap32 (z : Int) : Int := (z + 2147483648) % 4294967296 - 2147483648

/-- Conversion to `uint8_t`. -/
def u8 (z : Int) : Nat := (z % 256).toNat

/-- Conversion to `uint16_t`. -/
def u16 (z : Int) : Nat := (z % 65536).toNat

/-- Conversion to `uint32_t`. -/
def u32 (z : Int) : Nat := (z % 4294967296).toNat

/-- The C library `abs` on `int`. -/
def c_abs (z : Int) : Int := wrap32 (if z < 0 then -z else z)

/-! ## Board configuration and the SPI bus -/

/-- Macros of `pico/st7789.h`; the header is not among the sources, so their
values are parameters of every definition that uses them. -/
structure Config where
  DISP_WIDTH : Int
  DISP_HEIGHT : Int
  _BUFFER_SIZE : Nat
  CS_PIN : Int
  DC_PIN : Int
  ST7789_CASET : Nat
  ST7789_RASET : Nat
  ST7789_RAMWR : Nat

/-- One blocking SPI transfer, with the level of the D/C line and the SPI word
width that were in force when it was made. -/
inductive Xfer where
  | write8 (dc : Bool) (bits : Nat) (bytes : List Nat)
  | write16 (dc : Bool) (bits : Nat) (words : List Nat)
deriving DecidableEq

/-- Bus state: the driver's `st7789_data_mode` latch, the SPI word width last
set by `spi_set_format`, the GPIO output levels, and the transfers so far. -/
structure Bus where
  st7789_data_mode : Bool
  bits : Nat
  gpio : Int → Bool
  log : List Xfer

/-- SDK `spi_set_format`: only the word width is tracked. -/
def spi_set_format (bits : Nat) (s : Bus) : Bus :=
  { s with bits := bits }

/-- SDK `gpio_put`. -/
def gpio_put (pin : Int) (value : Bool) (s : Bus) : Bus :=
  { s with gpio := fun p => if p = pin then value else s.gpio p }

/-- SDK `spi_write_blocking(SPI_PORT, src, len)`: sends the first `len` bytes
found at `src`. -/
def spi_write_blocking (cfg : Config) (src : List Nat) (len : Nat) (s : Bus) : Bus :=
  { s with log := s.log ++ [Xfer.write8 (s.gpio cfg.DC_PIN) s.bits (src.take len)] }

/-- SDK `spi_write16_blocking(SPI_PORT, src, len)`: sends the first `len`
16-bit words found at `src`. -/
def spi_write16_blocking (cfg : Config) (src : List Nat) (len : Nat) (s : Bus) : Bus :=
  { s with log := s.log ++ [Xfer.write16 (s.gpio cfg.DC_PIN) s.bits (src.take len)] }

/-! ## The latch-based interface (`st7789_*`) -/

/-- Source `st7789_cmd` (lines 21-53). -/
def st7789_cmd (cfg : Config) (cmd : Nat) (data : List Nat) (len : Nat) (s : Bus) : Bus :=
  let s := if cfg.CS_PIN > -1 then spi_set_format 8 s else spi_set_format 8 s
  let s := { s with st7789_data_mode := false }
  let s := if cfg.CS_PIN > -1 then gpio_put cfg.CS_PIN false s else s
  let s := gpio_put cfg.DC_PIN false s
  let s := spi_write_blocking cfg [cmd] 1 s
  let s := if len ≠ 0 then spi_write_blocking cfg data len (gpio_put cfg.DC_PIN true s) else s
  let s := if cfg.CS_PIN > -1 then gpio_put cfg.CS_PIN true s else s
  gpio_put cfg.DC_PIN true s

/-- Source `st7789_caset` (lines 55-66); `xs`, `xe` are `uint16_t`. -/
def st7789_caset (cfg : Config) (xs xe : Nat) (s : Bus) : Bus :=
  let data := [u8 (xs >>> 8 : Nat), u8 (xs &&& 0xff : Nat), u8 (xe >>> 8 : Nat), u8 (xe &&& 0xff : Nat)]
  st7789_cmd cfg 0x2a data 4 s

/-- Source `st7789_raset` (lines 68-79); `ys`, `ye` are `uint16_t`. -/
def st7789_raset (cfg : Config) (ys ye : Nat) (s : Bus) : Bus :=
  let data := [u8 (ys >>> 8 : Nat), u8 (ys &&& 0xff : Nat), u8 (ye >>> 8 : Nat), u8 (ye &&& 0xff : Nat)]
  st7789_cmd cfg 0x2b data 4 s

/-- Source `st7789_ramwr` (lines 164-183). -/
def st7789_ramwr (cfg : Config) (s : Bus) : Bus :=
  let s := if cfg.CS_PIN > -1 then gpio_put cfg.CS_PIN false s else s
  let s := gpio_put cfg.DC_PIN false s
  let s := spi_write_blocking cfg [0x2c] 1 s
  let s := if cfg.CS_PIN > -1 then gpio_put cfg.CS_PIN false s else s
  gpio_put cfg.DC_PIN true s

/-- Source `st7789_write` (lines 185-200); `data` holds the 16-bit words found
at the pointer, `len` is the byte count. -/
def st7789_write (cfg : Config) (data : List Nat) (len : Nat) (s : Bus) : Bus :=
  let s :=
    if !s.st7789_data_mode then
      let s := st7789_ramwr cfg s
      let s := if cfg.CS_PIN > -1 then spi_set_format 16 s else spi_set_format 16 s
      { s with st7789_data_mode := true }
    else s
  spi_write16_blocking cfg data (len / 2) s

/-- Source `st7789_put` (lines 202-205). -/
def st7789_put (cfg : Config) (pixel : Nat) (s : Bus) : Bus :=
  st7789_write cfg [pixel] 2 s

/-- A call into the latch-based interface. -/
inductive Call where
  | cmd (cmd : Nat) (data : List Nat) (len : Nat)
  | write (data : List Nat) (len : Nat)
  | put (pixel : Nat)
deriving DecidableEq

/-- Whether a call streams pixel words (`st7789_write` or `st7789_put`). -/
def Call.isPixel : Call → Bool
  | .cmd _ _ _ => false
  | .write _ _ => true
  | .put _ => true

/-- The 16-bit words a pixel call hands to `spi_write16_blocking`. -/
def Call.words : Call → List Nat
  | .cmd _ _ _ => []
  | .write data len => data.take (len / 2)
  | .put pixel => [pixel]

/-- Performs one call. -/
def Call.exec (cfg : Config) : Call → Bus → Bus
  | .cmd c data len => st7789_cmd cfg c data len
  | .write data len => st7789_write cfg data len
  | .put pixel => st7789_put cfg pixel

/-- Performs a sequence of calls, first to last. -/
def run (cfg : Config) : List Call → Bus → Bus
  | [], s => s
  | c :: cs, s => run cfg cs (c.exec cfg s)

/-- The invariant of the latch: while `st7789_data_mode` is set the SPI word
width is 16 and the D/C line is high. -/
def LatchInv (cfg : Config) (s : Bus) : Prop :=
  s.st7789_data_mode = true → s.bits = 16 ∧ s.gpio cfg.DC_PIN = true

/-! ## The direct interface (`_writeCommand` / `_writeData`) -/

/-- Source `_writeCommand` (lines 325-330). -/
def _writeCommand (cfg : Config) (command : Nat) (s : Bus) : Bus :=
  let s := gpio_put cfg.CS_PIN false s
  let s := gpio_put cfg.DC_PIN false s
  let s := spi_write_blocking cfg [command] 1 s
  gpio_put cfg.CS_PIN true s

/-- Source `_writeData` (lines 332-337); `data` is what memory holds from the
pointer on, `Len` the number of bytes sent. -/
def _writeData (cfg : Config) (data : List Nat) (Len : Nat) (s : Bus) : Bus :=
  let s := gpio_put cfg.CS_PIN false s
  let s := gpio_put cfg.DC_PIN true s
  let s := spi_write_blocking cfg data Len s
  gpio_put cfg.CS_PIN true s

/-- Source `setAddressWindow` (lines 289-309); the four bounds are `uint16_t`. -/
def setAddressWindow (cfg : Config) (x0 y0 x1 y1 : Nat) (s : Bus) : Bus :=
  let x_start := x0
  let x_end := x1
  let y_start := y0
  let y_end := y1
  let s := _writeCommand cfg cfg.ST7789_CASET s
  let s := _writeData cfg
    [u8 (x_start >>> 8 : Nat), u8 (x_start &&& 0xFF : Nat), u8 (x_end >>> 8 : Nat), u8 (x_end &&& 0xFF : Nat)] 4 s
  let s := _writeCommand cfg cfg.ST7789_RASET s
  let s := _writeData cfg
    [u8 (y_start >>> 8 : Nat), u8 (y_start &&& 0xFF : Nat), u8 (y_end >>> 8 : Nat), u8 (y_end &&& 0xFF : Nat)] 4 s
  _writeCommand cfg cfg.ST7789_RAMWR s

/-- Source `_set_columns` (lines 399-408).  The guard `start > end > DISP_WIDTH`
is C for `(start > end) > DISP_WIDTH`.  `_writeData(result, 5)` sends the four
bytes of `result` and the byte that memory holds right after the array, which
is the parameter `past`. -/
def _set_columns (cfg : Config) (past : Nat) (start end_ : Int) (s : Bus) : Bus :=
  if (if start > end_ then (1 : Int) else 0) > cfg.DISP_WIDTH then s
  else
    let _x := u8 start
    let _y := u8 end_
    let result := [0x00, 0x00, _x, _y]
    let s := _writeCommand cfg cfg.ST7789_CASET s
    _writeData cfg (result ++ [past]) 5 s

/-- Source `_set_rows` (lines 410-419); `past` as in `_set_columns`. -/
def _set_rows (cfg : Config) (past : Nat) (start end_ : Int) (s : Bus) : Bus :=
  if (if start > end_ then (1 : Int) else 0) > cfg.DISP_HEIGHT then s
  else
    let s := _writeCommand cfg cfg.ST7789_RASET s
    let _x := u8 start
    let _y := u8 end_
    let result := [0x00, 0x00, _x, _y]
    _writeData cfg (result ++ [past]) 5 s

/-- Source `_set_window` (lines 421-428); `pastC`, `pastR` are the bytes lying
after the payload arrays of `_set_columns` and `_set_rows`. -/
def _set_window (cfg : Config) (pastC pastR : Nat) (x0 y0 x1 y1 : Int) (s : Bus) : Bus :=
  let s := _set_columns cfg pastC x0 x1 s
  let s := _set_rows cfg pastR y0 y1 s
  _writeCommand cfg cfg.ST7789_RAMWR s

/-- The loop `for(int i=_BUFFER_SIZE; i!=0; i--) _writeData(_drawpixel, sendbuffer)`
of `fill_rect`, with `i` iterations left. -/
def fill_rect_loop (cfg : Config) (_drawpixel : List Nat) (sendbuffer : Nat) : Nat → Bus → Bus
  | 0, s => s
  | i + 1, s => fill_rect_loop cfg _drawpixel sendbuffer i (_writeData cfg _drawpixel sendbuffer s)

/-- The value `chunks` that `fill_rect` computes with `div(width *= height, _BUFFER_SIZE)`
and then never reads. -/
def fill_rect_chunks (cfg : Config) (width height : Int) : Int :=
  Int.tdiv (wrap32 (width * height)) cfg._BUFFER_SIZE

/-- Source `fill_rect` (lines 479-508); `color` is `uint16_t`. -/
def fill_rect (cfg : Config) (pastC pastR : Nat) (x y width height : Int) (color : Nat)
    (s : Bus) : Bus :=
  let s := _set_window cfg pastC pastR x y (wrap32 (wrap32 (x + width) - 1))
    (wrap32 (wrap32 (y + height) - 1)) s
  let pixel := [u8 (color >>> 8 : Nat), u8 (color &&& 0xff : Nat)]
  let _chunks := fill_rect_chunks cfg width height
  let s := gpio_put cfg.DC_PIN true s
  let sendbuffer := u32 (cfg._BUFFER_SIZE * 2 : Nat)
  let _drawpixel := (List.range sendbuffer).map (fun i => pixel.getD (i % 2) 0)
  fill_rect_loop cfg _drawpixel sendbuffer cfg._BUFFER_SIZE s

/-! ## Line drawing -/

/-- A call `pixel(x, y, color)`; the body of `pixel` is not in this file of the
driver, so `line` is described by the calls it makes. -/
structure PixelCall where
  x : Int
  y : Int
  color : Nat
deriving DecidableEq

/-- The `while(x0 <= x1)` loop of `line` (lines 547-559).  `none` when the
iteration budget `fuel` runs out before the loop condition fails. -/
def lineLoop (steep : Bool) (x1 dx dy ystep : Int) (color : Nat) :
    Nat → Int → Int → Int → Option (List PixelCall)
  | 0, x0, _, _ => if x0 ≤ x1 then none else some []
  | fuel + 1, x0, y0, err =>
    if x0 ≤ x1 then
      let p : PixelCall := if steep then ⟨y0, x0, color⟩ else ⟨x0, y0, color⟩
      let err := wrap32 (err - dy)
      let y0 := if err < 0 then wrap32 (y0 + ystep) else y0
      let err := if err < 0 then wrap32 (err + dx) else err
      (lineLoop steep x1 dx dy ystep color fuel (wrap32 (x0 + 1)) y0 err).map (fun ps => p :: ps)
    else some []

/-- Source `line` (lines 516-560).  The four statements of the form
`x0, y0 = y0, x0;` are comma expressions: each evaluates its outer operands and
assigns the middle variable to itself, so they are translated as such. -/
def line (fuel : Nat) (x0 y0 x1 y1 : Int) (color : Nat) : Option (List PixelCall) :=
  let a := c_abs (wrap32 (y1 - y0))
  let b := c_abs (wrap32 (x1 - x0))
  let steep := decide (a > b)
  -- if(steep){ x0, y0 = y0, x0;  x1, y1 = y1, x1; }
  let y0 := if steep then y0 else y0
  let y1 := if steep then y1 else y1
  -- if(x0 > x1){ x0, x1 = x1, x0;  y0, y1 = y1, y0; }
  let x1 := if x0 > x1 then x1 else x1
  let y1 := if x0 > x1 then y1 else y1
  let dx := wrap32 (x1 - x0)
  let dy := c_abs (wrap32 (y1 - y0))
  let err := Int.tdiv dx 2
  let ystep : Int := if y0 < y1 then 1 else -1
  lineLoop steep x1 dx dy ystep color fuel x0 y0 err

/-- The pixel calls `(x0, y), (x0 + 1, y), ..., (x1, y)`, in this order. -/
def hlinePixels (x0 x1 y : Int) (color : Nat) : List PixelCall :=
  (List.range (x1 - x0 + 1).toNat).map (fun (i : Nat) => ⟨x0 + (i : Int), y, color⟩)

/-! ## Glyph rendering -/

/-- Modelled from the spec: `FontDef` is declared in `pico/fonts.h`, which is not
among the sources.  A fixed-size glyph cell (`width` by `height`) and a table
`data` of per-row bit patterns, `height` consecutive entries per character,
the first character being code 32. -/
structure FontDef where
  width : Nat
  height : Nat
  data : List Nat

/-- The inner loop `for (j = 0; j < font.width; j++)` of `writeChar`, with `n`
iterations left; `b` is the row pattern held in a `uint32_t`. -/
def writeCharCols (cfg : Config) (b : Nat) (color bgcolor : Nat) : Nat → Nat → Bus → Bus
  | 0, _, s => s
  | n + 1, j, s =>
    let s :=
      if ((b <<< j) % 4294967296) &&& 0x8000 ≠ 0 then
        _writeData cfg [u8 (color >>> 8 : Nat), u8 (color &&& 0xFF : Nat)] 2 s
      else
        _writeData cfg [u8 (bgcolor >>> 8 : Nat), u8 (bgcolor &&& 0xFF : Nat)] 2 s
    writeCharCols cfg b color bgcolor n (j + 1) s

/-- The outer loop `for (i = 0; i < font.height; i++)` of `writeChar`, with `n`
iterations left.  `none` when `font.data` is read outside the table. -/
def writeCharRows (cfg : Config) (ch : Nat) (font : FontDef) (color bgcolor : Nat) :
    Nat → Nat → Bus → Option Bus
  | 0, _, s => some s
  | n + 1, i, s =>
    match font.data[u32 (((ch : Int) - 32) * font.height + i)]? with
    | none => none
    | some b =>
      writeCharRows cfg ch font color bgcolor n (i + 1)
        (writeCharCols cfg b color bgcolor font.width 0 s)

/-- Source `writeChar` (lines 590-608); `x`, `y`, `color`, `bgcolor` are
`uint16_t`, `ch` is the character code. -/
def writeChar (cfg : Config) (x y : Nat) (ch : Nat) (font : FontDef) (color bgcolor : Nat)
    (s : Bus) : Option Bus :=
  let s := setAddressWindow cfg x y (u16 ((x : Int) + font.width - 1))
    (u16 ((y : Int) + font.height - 1)) s
  writeCharRows cfg ch font color bgcolor font.height 0 s

/-- A call `writeChar(x, y, ch, font, color, bgcolor)` made by `writeString`. -/
structure CharCall where
  x : Nat
  y : Nat
  ch : Nat
deriving DecidableEq

/-- Source `writeString` (lines 610-630), as the list of `writeChar` calls it
makes.  `str` holds the character codes found at the pointer; the loop ends at
the first zero code (or at the end of the list, where the terminator lies).
Every iteration that does not `break` advances `str` by one. -/
def writeString (cfg : Config) (font : FontDef) : Nat → Nat → List Nat → List CharCall
  | _, _, [] => []
  | x, y, c :: str =>
    if c = 0 then []
    else if (x : Int) + font.width ≥ cfg.DISP_WIDTH then
      let x := 0
      let y := u16 ((y : Int) + font.height)
      if (y : Int) + font.height ≥ cfg.DISP_HEIGHT then []
      else if c = 32 then writeString cfg font x y str
      else ⟨x, y, c⟩ :: writeString cfg font (u16 ((x : Int) + font.width)) y str
    else ⟨x, y, c⟩ :: writeString cfg font (u16 ((x : Int) + font.width)) y str

/-- The row pattern of glyph `ch` for row `i`: entry `(ch - 32) * height + i` of
the font table. -/
def glyphRow (font : FontDef) (ch i : Nat) : Nat :=
  font.data.getD ((ch - 32) * font.height + i) 0

/-- The transfer that streams one pixel: high byte, then low byte. -/
def pixelXfer (bits : Nat) (color : Nat) : Xfer :=
  Xfer.write8 true bits [color >>> 8, color &&& 0xFF]

/-- Reference pixel stream of a glyph, after the description of `write_char`:
row by row, within a row column by column, the cell of row `i` and column `j`
being `fg` when bit `15 - j` of the row pattern is set and `bg` otherwise. -/
def glyphStream (font : FontDef) (ch fg bg : Nat) (bits : Nat) : List Xfer :=
  (List.range font.height).flatMap (fun i =>
    (List.range font.width).map (fun j =>
      pixelXfer bits (if (glyphRow font ch i).testBit (15 - j) then fg else bg)))

/-! ## Reading the log -/

/-- Number of payload bytes a transfer carries with the D/C line high. -/
def Xfer.dataLen : Xfer → Nat
  | .write8 true _ bytes => bytes.length
  | .write16 true _ words => 2 * words.length
  | _ => 0

/-- Total number of data-phase bytes in a log. -/
def streamedBytes (log : List Xfer) : Nat := (log.map Xfer.dataLen).sum

/-- An example board: 240 by 320 panel, 256-pixel chunk buffer, the opcodes of
the controller data sheet. -/
def panel : Config where
  DISP_WIDTH := 240
  DISP_HEIGHT := 320
  _BUFFER_SIZE := 256
  CS_PIN := 17
  DC_PIN := 16
  ST7789_CASET := 0x2A
  ST7789_RASET := 0x2B
  ST7789_RAMWR := 0x2C

/-- A small font: cells of 3 by 2 pixels; the glyph of code 32 has rows
`101` and `010`, the glyph of code 33 is blank. -/
def tinyFont : FontDef where
  width := 3
  height := 2
  data := [0xA000, 0x4000, 0, 0]

/-- An idle bus: latch clear, 8-bit words, all lines high, nothing sent yet. -/
def idleBus : Bus where
  st7789_data_mode := false
  bits := 8
  gpio := fun _ => true
  log := []

/-- The characters of a C string: the codes before the first zero. -/
def cString (str : List Nat) : List Nat := str.takeWhile (fun c => c ≠ 0)

/-- Reference text layout, after the description of `write_string`, for a test
`wraps x` (the glyph at column `x` must go to a new line) and a test `stops y`
(a line starting at row `y` is not shown): characters go left to right, `x`
advancing by the cell width; a character that must wrap goes to `x = 0` of the
next line (`y` advanced by the cell height); if the new line is not shown,
output ends; if the wrapping character is a space it is consumed undrawn and
the character after it, whatever it is, is drawn at `x = 0`.  Coordinates are
16-bit. -/
def layoutFrom (font : FontDef) (wraps stops : Nat → Bool) :
    Nat → Nat → List Nat → List CharCall
  | _, _, [] => []
  | x, y, [c] =>
    if wraps x then
      if stops (u16 ((y : Int) + font.height)) then []
      else if c = 32 then []
      else [⟨0, u16 ((y : Int) + font.height), c⟩]
    else [⟨x, y, c⟩]
  | x, y, c :: d :: rest =>
    if wraps x then
      if stops (u16 ((y : Int) + font.height)) then []
      else if c = 32 then
        ⟨0, u16 ((y : Int) + font.height), d⟩ ::
          layoutFrom font wraps stops (u16 font.width) (u16 ((y : Int) + font.height)) rest
      else
        ⟨0, u16 ((y : Int) + font.height), c⟩ ::
          layoutFrom font wraps stops (u16 font.width) (u16 ((y : Int) + font.height)) (d :: rest)
    else ⟨x, y, c⟩ :: layoutFrom font wraps stops (u16 ((x : Int) + font.width)) y (d :: rest)

/-- The layout in which a glyph wraps exactly when its columns
`x .. x + width - 1` do not all lie below `DISP_WIDTH`, and output stops when
the rows `y .. y + height - 1` of the new line do not all lie below
`DISP_HEIGHT`. -/
def exceedLayout (cfg : Config) (font : FontDef) : Nat → Nat → List Nat → List CharCall :=
  layoutFrom font (fun x => decide ((x : Int) + font.width - 1 ≥ cfg.DISP_WIDTH))
    (fun y => decide ((y : Int) + font.height - 1 ≥ cfg.DISP_HEIGHT))

/-- The layout in which a glyph wraps when `x + width >= DISP_WIDTH` (its
columns `x .. x + width` do not all lie below `DISP_WIDTH`), and output stops
when the new line has `y + height >= DISP_HEIGHT`. -/
def reachLayout (cfg : Config) (font : FontDef) : Nat → Nat → List Nat → List CharCall :=
  layoutFrom font (fun x => decide ((x : Int) + font.width ≥ cfg.DISP_WIDTH))
    (fun y => decide ((y : Int) + font.height ≥ cfg.DISP_HEIGHT))

/-! ## Colour packing -/

/-- Source `convert_rgb_to_hex` (lines 585-588); the result is `uint16_t`. -/
def convert_rgb_to_hex (red green blue : Nat) : Nat :=
  (((red &&& 0xf8) <<< 8) ||| ((green &&& 0xfc) <<< 3) ||| (blue >>> 3)) % 65536

/-! ## Machine-integer facts -/

theorem u8_natCast (n : Nat) : u8 (n : Int) = n % 256 := by
  unfold u8; omega

theorem u8_hi (x : Nat) (h : x < 65536) : u8 ((x >>> 8 : Nat) : Int) = x >>> 8 := by
  rw [u8_natCast, Nat.shiftRight_eq_div_pow]; omega

theorem u8_lo (x : Nat) : u8 ((x &&& 0xFF : Nat) : Int) = x &&& 0xFF := by
  rw [u8_natCast]
  have h := Nat.and_pow_two_sub_one_eq_mod x 8
  norm_num at h
  rw [h]; omega

theorem hi_lo_recombine (x : Nat) : (x >>> 8) * 256 + (x &&& 0xFF) = x := by
  have h := Nat.and_pow_two_sub_one_eq_mod x 8
  norm_num at h
  rw [h, Nat.shiftRight_eq_div_pow]; omega

/-! ## Effect of the transfer primitives -/

@[simp] theorem _writeCommand_log (cfg : Config) (c : Nat) (s : Bus) :
    (_writeCommand cfg c s).log = s.log ++ [Xfer.write8 false s.bits [c]] := by
  simp [_writeCommand, gpio_put, spi_write_blocking]

@[simp] theorem _writeCommand_bits (cfg : Config) (c : Nat) (s : Bus) :
    (_writeCommand cfg c s).bits = s.bits := by
  simp [_writeCommand, gpio_put, spi_write_blocking]

@[simp] theorem _writeCommand_mode (cfg : Config) (c : Nat) (s : Bus) :
    (_writeCommand cfg c s).st7789_data_mode = s.st7789_data_mode := by
  simp [_writeCommand, gpio_put, spi_write_blocking]

@[simp] theorem _writeData_log (cfg : Config) (data : List Nat) (n : Nat) (s : Bus) :
    (_writeData cfg data n s).log = s.log ++ [Xfer.write8 true s.bits (data.take n)] := by
  simp [_writeData, gpio_put, spi_write_blocking]

@[simp] theorem _writeData_bits (cfg : Config) (data : List Nat) (n : Nat) (s : Bus) :
    (_writeData cfg data n s).bits = s.bits := by
  simp [_writeData, gpio_put, spi_write_blocking]

@[simp] theorem _writeData_mode (cfg : Config) (data : List Nat) (n : Nat) (s : Bus) :
    (_writeData cfg data n s).st7789_data_mode = s.st7789_data_mode := by
  simp [_writeData, gpio_put, spi_write_blocking]

theorem setAddressWindow_log (cfg : Config) (x0 y0 x1 y1 : Nat) (s : Bus) :
    (setAddressWindow cfg x0 y0 x1 y1 s).log = s.log ++
      [Xfer.write8 false s.bits [cfg.ST7789_CASET],
       Xfer.write8 true s.bits
         [u8 (x0 >>> 8 : Nat), u8 (x0 &&& 0xFF : Nat), u8 (x1 >>> 8 : Nat), u8 (x1 &&& 0xFF : Nat)],
       Xfer.write8 false s.bits [cfg.ST7789_RASET],
       Xfer.write8 true s.bits
         [u8 (y0 >>> 8 : Nat), u8 (y0 &&& 0xFF : Nat), u8 (y1 >>> 8 : Nat), u8 (y1 &&& 0xFF : Nat)],
       Xfer.write8 false s.bits [cfg.ST7789_RAMWR]] := by
  simp [setAddressWindow]

theorem setAddressWindow_bits (cfg : Config) (x0 y0 x1 y1 : Nat) (s : Bus) :
    (setAddressWindow cfg x0 y0 x1 y1 s).bits = s.bits := by
  simp [setAddressWindow]

theorem address_window_log_bytes (cfg : Config) (x0 y0 x1 y1 : Nat) (s : Bus)
    (hx0 : x0 < 65536) (hy0 : y0 < 65536) (hx1 : x1 < 65536) (hy1 : y1 < 65536) :
    (setAddressWindow cfg x0 y0 x1 y1 s).log = s.log ++
      [Xfer.write8 false s.bits [cfg.ST7789_CASET],
       Xfer.write8 true s.bits [x0 >>> 8, x0 &&& 0xFF, x1 >>> 8, x1 &&& 0xFF],
       Xfer.write8 false s.bits [cfg.ST7789_RASET],
       Xfer.write8 true s.bits [y0 >>> 8, y0 &&& 0xFF, y1 >>> 8, y1 &&& 0xFF],
       Xfer.write8 false s.bits [cfg.ST7789_RAMWR]] := by
  rw [setAddressWindow_log, u8_hi x0 hx0, u8_hi x1 hx1, u8_hi y0 hy0, u8_hi y1 hy1,
    u8_lo, u8_lo, u8_lo, u8_lo]

theorem st7789_cmd_log (cfg : Config) (c : Nat) (data : List Nat) (len : Nat) (s : Bus) :
    (st7789_cmd cfg c data len s).log = s.log ++
      Xfer.write8 false 8 [c] :: (if len ≠ 0 then [Xfer.write8 true 8 (data.take len)] else []) := by
  by_cases hcs : cfg.CS_PIN > -1 <;> by_cases hl : len = 0 <;>
    simp [st7789_cmd, gpio_put, spi_write_blocking, spi_set_format, hcs, hl]

theorem st7789_cmd_state (cfg : Config) (c : Nat) (data : List Nat) (len : Nat) (s : Bus) :
    (st7789_cmd cfg c data len s).st7789_data_mode = false ∧
    (st7789_cmd cfg c data len s).bits = 8 ∧
    (st7789_cmd cfg c data len s).gpio cfg.DC_PIN = true := by
  by_cases hcs : cfg.CS_PIN > -1 <;> by_cases hl : len = 0 <;>
    simp [st7789_cmd, gpio_put, spi_write_blocking, spi_set_format, hcs, hl]


theorem _set_columns_bits (cfg : Config) (past : Nat) (a b : Int) (s : Bus) :
    (_set_columns cfg past a b s).bits = s.bits := by
  by_cases h : (if a > b then (1 : Int) else 0) > cfg.DISP_WIDTH <;> simp [_set_columns, h]

theorem _set_rows_bits (cfg : Config) (past : Nat) (a b : Int) (s : Bus) :
    (_set_rows cfg past a b s).bits = s.bits := by
  by_cases h : (if a > b then (1 : Int) else 0) > cfg.DISP_HEIGHT <;> simp [_set_rows, h]

theorem _set_columns_log (cfg : Config) (past : Nat) (a b : Int) (s : Bus) :
    ∃ sent, (_set_columns cfg past a b s).log = s.log ++ sent := by
  by_cases h : (if a > b then (1 : Int) else 0) > cfg.DISP_WIDTH
  · exact ⟨[], by simp [_set_columns, h]⟩
  · exact ⟨[Xfer.write8 false s.bits [cfg.ST7789_CASET],
      Xfer.write8 true s.bits [0, 0, u8 a, u8 b, past]], by simp [_set_columns, h]⟩

theorem _set_rows_log (cfg : Config) (past : Nat) (a b : Int) (s : Bus) :
    ∃ sent, (_set_rows cfg past a b s).log = s.log ++ sent := by
  by_cases h : (if a > b then (1 : Int) else 0) > cfg.DISP_HEIGHT
  · exact ⟨[], by simp [_set_rows, h]⟩
  · exact ⟨[Xfer.write8 false s.bits [cfg.ST7789_RASET],
      Xfer.write8 true s.bits [0, 0, u8 a, u8 b, past]], by simp [_set_rows, h]⟩

theorem _set_window_bits (cfg : Config) (pastC pastR : Nat) (x0 y0 x1 y1 : Int) (s : Bus) :
    (_set_window cfg pastC pastR x0 y0 x1 y1 s).bits = s.bits := by
  simp [_set_window, _set_rows_bits, _set_columns_bits]

theorem fill_rect_loop_log (cfg : Config) (buf : List Nat) (n : Nat) (i : Nat) (s : Bus) :
    (fill_rect_loop cfg buf n i s).log =
      s.log ++ List.replicate i (Xfer.write8 true s.bits (buf.take n)) := by
  induction i generalizing s with
  | zero => simp [fill_rect_loop]
  | succ i ih => simp [fill_rect_loop, ih, List.replicate_succ]

theorem fill_rect_log (cfg : Config) (pastC pastR : Nat) (x y width height : Int) (color : Nat)
    (s : Bus) :
    (fill_rect cfg pastC pastR x y width height color s).log =
      (_set_window cfg pastC pastR x y (wrap32 (wrap32 (x + width) - 1))
        (wrap32 (wrap32 (y + height) - 1)) s).log ++
      List.replicate cfg._BUFFER_SIZE (Xfer.write8 true s.bits
        ((List.range (u32 (cfg._BUFFER_SIZE * 2 : Nat))).map
          (fun i => [u8 (color >>> 8 : Nat), u8 (color &&& 0xff : Nat)].getD (i % 2) 0))) := by
  unfold fill_rect
  simp only [fill_rect_loop_log]
  simp [gpio_put, _set_window_bits, List.take_of_length_le]

theorem streamedBytes_replicate (n : Nat) (bits : Nat) (bytes : List Nat) :
    streamedBytes (List.replicate n (Xfer.write8 true bits bytes)) = n * bytes.length := by
  simp [streamedBytes, Xfer.dataLen]

/-! ## Address windows -/

/-- C7: for 16-bit bounds, `setAddressWindow` sends exactly CASET, the four
big-endian column bytes, RASET, the four big-endian row bytes, RAMWR;
`st7789_caset` and `st7789_raset` send opcode 0x2A resp. 0x2B with the same
four-byte payloads; and in each payload `hi * 256 + lo` gives the bound back. -/
theorem address_window_sequence (cfg : Config) (x0 y0 x1 y1 : Nat) (s : Bus)
    (hx0 : x0 < 65536) (hy0 : y0 < 65536) (hx1 : x1 < 65536) (hy1 : y1 < 65536) :
    (setAddressWindow cfg x0 y0 x1 y1 s).log = s.log ++
      [Xfer.write8 false s.bits [cfg.ST7789_CASET],
       Xfer.write8 true s.bits [x0 >>> 8, x0 &&& 0xFF, x1 >>> 8, x1 &&& 0xFF],
       Xfer.write8 false s.bits [cfg.ST7789_RASET],
       Xfer.write8 true s.bits [y0 >>> 8, y0 &&& 0xFF, y1 >>> 8, y1 &&& 0xFF],
       Xfer.write8 false s.bits [cfg.ST7789_RAMWR]] ∧
    (st7789_caset cfg x0 x1 s).log = s.log ++
      [Xfer.write8 false 8 [0x2A],
       Xfer.write8 true 8 [x0 >>> 8, x0 &&& 0xFF, x1 >>> 8, x1 &&& 0xFF]] ∧
    (st7789_raset cfg y0 y1 s).log = s.log ++
      [Xfer.write8 false 8 [0x2B],
       Xfer.write8 true 8 [y0 >>> 8, y0 &&& 0xFF, y1 >>> 8, y1 &&& 0xFF]] ∧
    (∀ v ∈ [x0, y0, x1, y1], (v >>> 8) * 256 + (v &&& 0xFF) = v) := by
  refine ⟨?_, ?_, ?_, ?_⟩
  · exact address_window_log_bytes cfg x0 y0 x1 y1 s hx0 hy0 hx1 hy1
  · have h0 := u8_lo x0
    have h1 := u8_lo x1
    norm_num at h0 h1
    simp [st7789_caset, st7789_cmd_log, u8_hi x0 hx0, u8_hi x1 hx1, h0, h1]
  · have h0 := u8_lo y0
    have h1 := u8_lo y1
    norm_num at h0 h1
    simp [st7789_raset, st7789_cmd_log, u8_hi y0 hy0, u8_hi y1 hy1, h0, h1]
  · intro v _
    exact hi_lo_recombine v

/-- Witness for C7: the window (10, 20) .. (200, 300) on the example board. -/
theorem address_window_sequence_witness :
    (setAddressWindow panel 10 20 200 300 idleBus).log =
      [Xfer.write8 false 8 [0x2A], Xfer.write8 true 8 [0, 10, 0, 200],
       Xfer.write8 false 8 [0x2B], Xfer.write8 true 8 [0, 20, 1, 44],
       Xfer.write8 false 8 [0x2C]] := by
  have h := (address_window_sequence panel 10 20 200 300 idleBus
    (by decide) (by decide) (by decide) (by decide)).1
  simpa [idleBus, panel] using h

/-- C6: on the example board `_set_window(1, 2, 3, 300)` lies inside the panel,
yet the column payload is the five bytes `0, 0, 1, 3, pastC` and the row
payload `0, 0, 2, 44, pastR` (the bounds cut to 8 bits, then one byte from
beyond the array), not the four big-endian bytes `0, 1, 0, 3` and
`0, 2, 1, 44`. -/
theorem set_window_payload_mismatch (pastC pastR : Nat) :
    (_set_window panel pastC pastR 1 2 3 300 idleBus).log =
      [Xfer.write8 false 8 [0x2A], Xfer.write8 true 8 [0, 0, 1, 3, pastC],
       Xfer.write8 false 8 [0x2B], Xfer.write8 true 8 [0, 0, 2, 44, pastR],
       Xfer.write8 false 8 [0x2C]] ∧
    (_set_window panel pastC pastR 1 2 3 300 idleBus).log ≠
      [Xfer.write8 false 8 [0x2A], Xfer.write8 true 8 [1 >>> 8, 1 &&& 0xFF, 3 >>> 8, 3 &&& 0xFF],
       Xfer.write8 false 8 [0x2B],
       Xfer.write8 true 8 [2 >>> 8, 2 &&& 0xFF, 300 >>> 8, 300 &&& 0xFF],
       Xfer.write8 false 8 [0x2C]] := by
  have h : (_set_window panel pastC pastR 1 2 3 300 idleBus).log =
      [Xfer.write8 false 8 [0x2A], Xfer.write8 true 8 [0, 0, 1, 3, pastC],
       Xfer.write8 false 8 [0x2B], Xfer.write8 true 8 [0, 0, 2, 44, pastR],
       Xfer.write8 false 8 [0x2C]] := by
    simp [_set_window, _set_columns, _set_rows, panel, idleBus, u8]
  refine ⟨h, ?_⟩
  rw [h]
  simp

/-- C4 as stated fails: on the example board `_set_window(5, 0, 3, 0)` has
`x1 < x0`, and five bus transfers are made. -/
theorem set_window_reversed_not_rejected :
    (3 : Int) < 5 ∧
    (_set_window panel 0 0 5 0 3 0 idleBus).log =
      [Xfer.write8 false 8 [0x2A], Xfer.write8 true 8 [0, 0, 5, 3, 0],
       Xfer.write8 false 8 [0x2B], Xfer.write8 true 8 [0, 0, 0, 0, 0],
       Xfer.write8 false 8 [0x2C]] := by
  refine ⟨by decide, ?_⟩
  simp [_set_window, _set_columns, _set_rows, panel, idleBus, u8]

/-- C4, amended: whatever the bounds, `_set_window` is not rejected as a whole;
its last bus transfer is always the memory-write command, so the log grows by
at least one transfer. -/
theorem set_window_always_sends_ramwr (cfg : Config) (pastC pastR : Nat)
    (x0 y0 x1 y1 : Int) (s : Bus) :
    (∃ sent, (_set_window cfg pastC pastR x0 y0 x1 y1 s).log =
      s.log ++ sent ++ [Xfer.write8 false s.bits [cfg.ST7789_RAMWR]]) ∧
    s.log.length < (_set_window cfg pastC pastR x0 y0 x1 y1 s).log.length := by
  obtain ⟨c, hc⟩ := _set_columns_log cfg pastC x0 x1 s
  obtain ⟨r, hr⟩ := _set_rows_log cfg pastR y0 y1 (_set_columns cfg pastC x0 x1 s)
  have h : (_set_window cfg pastC pastR x0 y0 x1 y1 s).log =
      s.log ++ (c ++ r) ++ [Xfer.write8 false s.bits [cfg.ST7789_RAMWR]] := by
    simp [_set_window, hr, hc, _set_rows_bits, _set_columns_bits]
  refine ⟨⟨c ++ r, h⟩, ?_⟩
  rw [h]
  simp

/-! ## Filled rectangles -/

/-- C1: on the example board (`_BUFFER_SIZE` 256) `fill_rect(0, 0, 1, 1, color)`
sets the window once and then sends 256 transfers of 512 bytes each, that is
65536 pixels, where `w * h` is 1. -/
theorem fill_rect_streams_buffer_square (pastC pastR color : Nat) :
    (fill_rect panel pastC pastR 0 0 1 1 color idleBus).log =
      (_set_window panel pastC pastR 0 0 0 0 idleBus).log ++
      List.replicate 256 (Xfer.write8 true 8
        ((List.range 512).map
          (fun i => [u8 (color >>> 8 : Nat), u8 (color &&& 0xff : Nat)].getD (i % 2) 0))) ∧
    streamedBytes (List.replicate 256 (Xfer.write8 true 8
        ((List.range 512).map
          (fun i => [u8 (color >>> 8 : Nat), u8 (color &&& 0xff : Nat)].getD (i % 2) 0))))
      = 2 * 65536 ∧
    (65536 : Int) ≠ 1 * 1 := by
  refine ⟨?_, ?_, by decide⟩
  · rw [fill_rect_log]
    have hw : wrap32 (wrap32 (0 + 1) - 1) = 0 := by decide
    have hu : u32 ((panel._BUFFER_SIZE * 2 : Nat) : Int) = 512 := by decide
    rw [hw, hu]
    rfl
  · rw [streamedBytes_replicate]
    simp

/-! ## Colour packing -/

set_option maxRecDepth 20000 in
theorem red_field (r : Nat) (h : r < 256) : (r &&& 0xf8) <<< 8 = 2 ^ 11 * (r >>> 3) := by
  revert r
  decide

set_option maxRecDepth 20000 in
theorem green_field (g : Nat) (h : g < 256) : (g &&& 0xfc) <<< 3 = 2 ^ 5 * (g >>> 2) := by
  revert g
  decide

theorem packed_value (r g b : Nat) (hr : r < 256) (hg : g < 256) (hb : b < 256) :
    convert_rgb_to_hex r g b = 2048 * (r >>> 3) + 32 * (g >>> 2) + (b >>> 3) := by
  have hR : r >>> 3 < 32 := by rw [Nat.shiftRight_eq_div_pow]; omega
  have hG : g >>> 2 < 64 := by rw [Nat.shiftRight_eq_div_pow]; omega
  have hB : b >>> 3 < 2 ^ 5 := by rw [Nat.shiftRight_eq_div_pow]; omega
  have hGB : 2 ^ 5 * (g >>> 2) + (b >>> 3) < 2 ^ 11 := by omega
  unfold convert_rgb_to_hex
  rw [red_field r hr, green_field g hg, Nat.lor_assoc, ← Nat.mul_add_lt_is_or hB,
    ← Nat.mul_add_lt_is_or hGB]
  omega

/-- C5: for channels in 0..255 the packed value has `red >> 3` in its top five
bits, `green >> 2` in the middle six and `blue >> 3` in the bottom five. -/
theorem convert_rgb_to_hex_fields (red green blue : Nat)
    (hr : red ≤ 255) (hg : green ≤ 255) (hb : blue ≤ 255) :
    convert_rgb_to_hex red green blue >>> 11 = red >>> 3 ∧
    (convert_rgb_to_hex red green blue >>> 5) &&& 0x3F = green >>> 2 ∧
    convert_rgb_to_hex red green blue &&& 0x1F = blue >>> 3 := by
  have hR : red >>> 3 < 32 := by rw [Nat.shiftRight_eq_div_pow]; omega
  have hG : green >>> 2 < 64 := by rw [Nat.shiftRight_eq_div_pow]; omega
  have hB : blue >>> 3 < 32 := by rw [Nat.shiftRight_eq_div_pow]; omega
  have h6 := Nat.and_pow_two_sub_one_eq_mod (convert_rgb_to_hex red green blue >>> 5) 6
  have h5 := Nat.and_pow_two_sub_one_eq_mod (convert_rgb_to_hex red green blue) 5
  norm_num at h6 h5
  rw [h6, h5, Nat.shiftRight_eq_div_pow, Nat.shiftRight_eq_div_pow,
    packed_value red green blue (by omega) (by omega) (by omega)]
  refine ⟨?_, ?_, ?_⟩ <;> omega

/-- Witness for C5: the colour (200, 100, 50). -/
theorem convert_rgb_to_hex_fields_witness :
    convert_rgb_to_hex 200 100 50 >>> 11 = 200 >>> 3 ∧
    (convert_rgb_to_hex 200 100 50 >>> 5) &&& 0x3F = 100 >>> 2 ∧
    convert_rgb_to_hex 200 100 50 &&& 0x1F = 50 >>> 3 :=
  convert_rgb_to_hex_fields 200 100 50 (by decide) (by decide) (by decide)

/-! ## The data-mode latch -/

theorem st7789_write_clear (cfg : Config) (data : List Nat) (len : Nat) (s : Bus)
    (h : s.st7789_data_mode = false) :
    (st7789_write cfg data len s).log =
      s.log ++ [Xfer.write8 false s.bits [0x2C], Xfer.write16 true 16 (data.take (len / 2))] ∧
    (st7789_write cfg data len s).st7789_data_mode = true ∧
    (st7789_write cfg data len s).bits = 16 ∧
    (st7789_write cfg data len s).gpio cfg.DC_PIN = true := by
  by_cases hcs : cfg.CS_PIN > -1 <;>
    simp [st7789_write, st7789_ramwr, gpio_put, spi_write_blocking, spi_write16_blocking,
      spi_set_format, h, hcs]

theorem st7789_write_set (cfg : Config) (data : List Nat) (len : Nat) (s : Bus)
    (h : s.st7789_data_mode = true) :
    (st7789_write cfg data len s).log =
      s.log ++ [Xfer.write16 (s.gpio cfg.DC_PIN) s.bits (data.take (len / 2))] ∧
    (st7789_write cfg data len s).st7789_data_mode = true ∧
    (st7789_write cfg data len s).bits = s.bits ∧
    (st7789_write cfg data len s).gpio cfg.DC_PIN = s.gpio cfg.DC_PIN := by
  simp [st7789_write, spi_write16_blocking, h]

theorem st7789_write_inv (cfg : Config) (data : List Nat) (len : Nat) (s : Bus)
    (hs : LatchInv cfg s) :
    (st7789_write cfg data len s).log =
      s.log ++ (if s.st7789_data_mode then [] else [Xfer.write8 false s.bits [0x2C]]) ++
        [Xfer.write16 true 16 (data.take (len / 2))] ∧
    (st7789_write cfg data len s).st7789_data_mode = true ∧
    (st7789_write cfg data len s).bits = 16 ∧
    (st7789_write cfg data len s).gpio cfg.DC_PIN = true := by
  cases h : s.st7789_data_mode with
  | false =>
    have := st7789_write_clear cfg data len s h
    simpa using this
  | true =>
    obtain ⟨hb, hd⟩ := hs h
    have := st7789_write_set cfg data len s h
    simpa [hb, hd] using this

theorem exec_inv (cfg : Config) (c : Call) (s : Bus) (hs : LatchInv cfg s) :
    LatchInv cfg (c.exec cfg s) := by
  intro hm
  cases c with
  | cmd c data len =>
    have := st7789_cmd_state cfg c data len s
    simp [Call.exec] at hm
    rw [this.1] at hm
    cases hm
  | write data len =>
    have := st7789_write_inv cfg data len s hs
    exact ⟨this.2.2.1, this.2.2.2⟩
  | put pixel =>
    have := st7789_write_inv cfg [pixel] 2 s hs
    exact ⟨this.2.2.1, this.2.2.2⟩

theorem run_inv (cfg : Config) (calls : List Call) (s : Bus) (hs : LatchInv cfg s) :
    LatchInv cfg (run cfg calls s) := by
  induction calls generalizing s with
  | nil => exact hs
  | cons c cs ih => exact ih _ (exec_inv cfg c s hs)

theorem exec_pixel (cfg : Config) (c : Call) (s : Bus) (hs : LatchInv cfg s)
    (hc : c.isPixel = true) :
    (c.exec cfg s).log =
      s.log ++ (if s.st7789_data_mode then [] else [Xfer.write8 false s.bits [0x2C]]) ++
        [Xfer.write16 true 16 c.words] ∧
    (c.exec cfg s).st7789_data_mode = true := by
  cases c with
  | cmd c data len => simp [Call.isPixel] at hc
  | write data len =>
    have := st7789_write_inv cfg data len s hs
    exact ⟨this.1, this.2.1⟩
  | put pixel =>
    have := st7789_write_inv cfg [pixel] 2 s hs
    exact ⟨by simpa [Call.exec, st7789_put, Call.words] using this.1, this.2.1⟩

theorem run_pixels_set (cfg : Config) (ws : List Call) (s : Bus) (hs : LatchInv cfg s)
    (hm : s.st7789_data_mode = true) (hws : ∀ c ∈ ws, c.isPixel = true) :
    (run cfg ws s).log = s.log ++ ws.map (fun c => Xfer.write16 true 16 c.words) := by
  induction ws generalizing s with
  | nil => simp [run]
  | cons c cs ih =>
    have hc := exec_pixel cfg c s hs (hws c (List.mem_cons_self _ _))
    have := ih (c.exec cfg s) (exec_inv cfg c s hs) hc.2
      (fun d hd => hws d (List.mem_cons_of_mem _ hd))
    simp [run, this, hc.1, hm]

theorem run_pixels (cfg : Config) (ws : List Call) (s : Bus) (hs : LatchInv cfg s)
    (hne : ws ≠ []) (hws : ∀ c ∈ ws, c.isPixel = true) :
    (run cfg ws s).log =
      s.log ++ (if s.st7789_data_mode then [] else [Xfer.write8 false s.bits [0x2C]]) ++
        ws.map (fun c => Xfer.write16 true 16 c.words) := by
  cases ws with
  | nil => exact absurd rfl hne
  | cons c cs =>
    have hc := exec_pixel cfg c s hs (hws c (List.mem_cons_self _ _))
    have := run_pixels_set cfg cs (c.exec cfg s) (exec_inv cfg c s hs) hc.2
      (fun d hd => hws d (List.mem_cons_of_mem _ hd))
    simp [run, this, hc.1]

/-- C10: in every state reached from a latch-clear state by `st7789_cmd`,
`st7789_write` and `st7789_put` calls, a set latch implies 16-bit word width;
`st7789_write` sends opcode 0x2C (and switches to 16 bits) only when the latch
is clear; a non-empty run of consecutive write/put calls sends 0x2C at most
once, before the first pixel word, and exactly once when it starts with the
latch clear; `st7789_cmd` ends with the latch clear and sends its opcode at
8-bit width. -/
theorem latch_protocol (cfg : Config) (calls : List Call) (s0 : Bus)
    (h0 : s0.st7789_data_mode = false) :
    ((run cfg calls s0).st7789_data_mode = true → (run cfg calls s0).bits = 16) ∧
    (∀ data len,
      (st7789_write cfg data len (run cfg calls s0)).log =
        (run cfg calls s0).log ++
          (if (run cfg calls s0).st7789_data_mode then []
            else [Xfer.write8 false (run cfg calls s0).bits [0x2C]]) ++
          [Xfer.write16 true 16 (data.take (len / 2))] ∧
      (st7789_write cfg data len (run cfg calls s0)).st7789_data_mode = true ∧
      (st7789_write cfg data len (run cfg calls s0)).bits = 16) ∧
    (∀ ws : List Call, ws ≠ [] → (∀ c ∈ ws, c.isPixel = true) →
      (run cfg ws (run cfg calls s0)).log =
        (run cfg calls s0).log ++
          (if (run cfg calls s0).st7789_data_mode then []
            else [Xfer.write8 false (run cfg calls s0).bits [0x2C]]) ++
          ws.map (fun c => Xfer.write16 true 16 c.words)) ∧
    (∀ c data len,
      (st7789_cmd cfg c data len (run cfg calls s0)).log =
        (run cfg calls s0).log ++ Xfer.write8 false 8 [c] ::
          (if len ≠ 0 then [Xfer.write8 true 8 (data.take len)] else []) ∧
      (st7789_cmd cfg c data len (run cfg calls s0)).st7789_data_mode = false ∧
      (st7789_cmd cfg c data len (run cfg calls s0)).bits = 8) := by
  have hinit : LatchInv cfg s0 := by
    intro h
    rw [h0] at h
    cases h
  have hs := run_inv cfg calls s0 hinit
  refine ⟨fun h => (hs h).1, ?_, ?_, ?_⟩
  · intro data len
    have := st7789_write_inv cfg data len _ hs
    exact ⟨this.1, this.2.1, this.2.2.1⟩
  · intro ws hne hws
    exact run_pixels cfg ws _ hs hne hws
  · intro c data len
    have := st7789_cmd_state cfg c data len (run cfg calls s0)
    exact ⟨st7789_cmd_log cfg c data len _, this.1, this.2.1⟩

/-- Witness for C10: a column-address command followed by two pixels on the
example board; opcode 0x2C appears once, before the first pixel word, and the
state reached has the latch set and 16-bit words. -/
theorem latch_protocol_witness :
    idleBus.st7789_data_mode = false ∧
    (run panel [Call.put 0xF800, Call.put 0x07E0]
        (run panel [Call.cmd 0x2A [0, 0, 0, 239] 4] idleBus)).log =
      [Xfer.write8 false 8 [0x2A], Xfer.write8 true 8 [0, 0, 0, 239],
       Xfer.write8 false 8 [0x2C],
       Xfer.write16 true 16 [0xF800], Xfer.write16 true 16 [0x07E0]] ∧
    (run panel [Call.cmd 0x2A [0, 0, 0, 239] 4, Call.put 0xF800] idleBus).st7789_data_mode
      = true ∧
    (run panel [Call.cmd 0x2A [0, 0, 0, 239] 4, Call.put 0xF800] idleBus).bits = 16 := by
  refine ⟨rfl, ?_, rfl, ?_⟩
  · have h := (latch_protocol panel [Call.cmd 0x2A [0, 0, 0, 239] 4] idleBus rfl).2.2.1
      [Call.put 0xF800, Call.put 0x07E0] (by simp) (by simp [Call.isPixel])
    rw [h]
    simp [run, Call.exec, st7789_cmd_log, (st7789_cmd_state _ _ _ _ _).1,
      (st7789_cmd_state _ _ _ _ _).2.1, idleBus, Call.words]
  · exact (latch_protocol panel [Call.cmd 0x2A [0, 0, 0, 239] 4, Call.put 0xF800] idleBus
      rfl).1 rfl

/-! ## Glyphs -/

theorem test_msb_first (b j : Nat) (hj : j ≤ 15) :
    (((b <<< j) % 4294967296) &&& 0x8000 ≠ 0) ↔ b.testBit (15 - j) = true := by
  have h := Nat.and_two_pow ((b <<< j) % 4294967296) 15
  have hm := Nat.testBit_mod_two_pow (b <<< j) 32 15
  norm_num at h hm
  rw [h, hm]
  have : decide (j ≤ 15) = true := by simpa using hj
  rw [this]
  cases b.testBit (15 - j) <;> simp

theorem u8_pixel (c : Nat) (h : c < 65536) :
    [u8 ((c >>> 8 : Nat) : Int), u8 ((c &&& 0xFF : Nat) : Int)] = [c >>> 8, c &&& 0xFF] := by
  rw [u8_hi c h, u8_lo]

theorem writeCharCols_log (cfg : Config) (b fg bg : Nat) (n j : Nat) (s : Bus)
    (hfg : fg < 65536) (hbg : bg < 65536) :
    (writeCharCols cfg b fg bg n j s).bits = s.bits ∧
    (writeCharCols cfg b fg bg n j s).log = s.log ++ (List.range n).map (fun k =>
      pixelXfer s.bits
        (if ((b <<< (j + k)) % 4294967296) &&& 0x8000 ≠ 0 then fg else bg)) := by
  induction n generalizing j s with
  | zero => simp [writeCharCols]
  | succ n ih =>
    have hf := u8_pixel fg hfg
    have hb := u8_pixel bg hbg
    simp only [Nat.reduceShiftRight] at hf hb
    by_cases ht : ((b <<< j) % 4294967296) &&& 0x8000 ≠ 0
    · obtain ⟨h1, h2⟩ := ih (j + 1)
        (_writeData cfg [u8 ((fg >>> 8 : Nat) : Int), u8 ((fg &&& 0xFF : Nat) : Int)] 2 s)
      simp only [writeCharCols, if_pos ht]
      refine ⟨by simpa using h1, ?_⟩
      rw [h2, List.range_succ_eq_map]
      simp [pixelXfer, hf, ht, Nat.add_assoc, Nat.add_comm 1]
    · obtain ⟨h1, h2⟩ := ih (j + 1)
        (_writeData cfg [u8 ((bg >>> 8 : Nat) : Int), u8 ((bg &&& 0xFF : Nat) : Int)] 2 s)
      simp only [writeCharCols, if_neg ht]
      refine ⟨by simpa using h1, ?_⟩
      rw [h2, List.range_succ_eq_map]
      have ht0 : b <<< j % 4294967296 &&& 32768 = 0 := by simpa using ht
      simp [pixelXfer, hb, ht0, Nat.add_assoc, Nat.add_comm 1]

theorem u32_index (ch h i len : Nat) (hlo : 32 ≤ ch) (hin : (ch - 32) * h + i < len)
    (hlen : len < 4294967296) :
    u32 (((ch : Int) - 32) * h + i) = (ch - 32) * h + i := by
  have hc : ((ch : Int) - 32) * h = (((ch - 32) * h : Nat) : Int) := by
    push_cast [Nat.cast_sub hlo]
    ring
  generalize (ch - 32) * h = m at hc hin
  unfold u32
  rw [hc]
  omega

theorem writeCharCols_row (cfg : Config) (b fg bg : Nat) (w : Nat) (s : Bus)
    (hw : w ≤ 16) (hfg : fg < 65536) (hbg : bg < 65536) :
    (writeCharCols cfg b fg bg w 0 s).bits = s.bits ∧
    (writeCharCols cfg b fg bg w 0 s).log = s.log ++ (List.range w).map (fun j =>
      pixelXfer s.bits (if b.testBit (15 - j) then fg else bg)) := by
  obtain ⟨h1, h2⟩ := writeCharCols_log cfg b fg bg w 0 s hfg hbg
  refine ⟨h1, ?_⟩
  rw [h2]
  congr 1
  apply List.map_congr_left
  intro j hj
  have hj16 : j ≤ 15 := by
    have := List.mem_range.mp hj
    omega
  have ht := test_msb_first b j hj16
  rw [Nat.zero_add]
  by_cases hb : b.testBit (15 - j) = true
  · rw [if_pos (ht.mpr hb), if_pos hb]
  · rw [if_neg (fun h => hb (ht.mp h)), if_neg hb]

theorem writeCharRows_log (cfg : Config) (ch : Nat) (font : FontDef) (fg bg : Nat)
    (n i : Nat) (s : Bus) (hlo : 32 ≤ ch)
    (hin : (ch - 32) * font.height + i + n ≤ font.data.length)
    (hlen : font.data.length < 4294967296) (hw : font.width ≤ 16)
    (hfg : fg < 65536) (hbg : bg < 65536) :
    ∃ s', writeCharRows cfg ch font fg bg n i s = some s' ∧ s'.bits = s.bits ∧
      s'.log = s.log ++ (List.range n).flatMap (fun k =>
        (List.range font.width).map (fun j =>
          pixelXfer s.bits (if (glyphRow font ch (i + k)).testBit (15 - j) then fg else bg))) := by
  induction n generalizing i s with
  | zero => exact ⟨s, by simp [writeCharRows]⟩
  | succ n ih =>
    have hidx : (ch - 32) * font.height + i < font.data.length := by omega
    have hu := u32_index ch font.height i font.data.length hlo hidx hlen
    have hget : font.data[(ch - 32) * font.height + i]? =
        some (glyphRow font ch i) := by
      rw [List.getElem?_eq_getElem hidx, glyphRow, List.getD_eq_getElem _ _ hidx]
    obtain ⟨hb, hl⟩ := writeCharCols_row cfg (glyphRow font ch i) fg bg font.width s hw hfg hbg
    obtain ⟨s', hs', hbits, hlog⟩ := ih (i + 1)
      (writeCharCols cfg (glyphRow font ch i) fg bg font.width 0 s) (by omega)
    refine ⟨s', ?_, by rw [hbits, hb], ?_⟩
    · simp only [writeCharRows, hu, hget]
      exact hs'
    · rw [hlog, hl, hb, List.range_succ_eq_map]
      simp [List.flatMap_cons, List.flatMap_map, Nat.add_assoc, Nat.add_comm 1, Function.comp_def]

theorem glyphStream_length (font : FontDef) (ch fg bg bits : Nat) :
    (glyphStream font ch fg bg bits).length = font.width * font.height := by
  simp [glyphStream, List.length_flatMap, Function.comp_def, Nat.mul_comm]

theorem glyphStream_blank (font : FontDef) (ch fg bg bits : Nat)
    (h : ∀ i < font.height, glyphRow font ch i = 0) :
    glyphStream font ch fg bg bits =
      List.replicate (font.width * font.height) (pixelXfer bits bg) := by
  unfold glyphStream
  have hrow : ∀ i ∈ List.range font.height,
      (List.range font.width).map (fun j =>
        pixelXfer bits (if (glyphRow font ch i).testBit (15 - j) then fg else bg)) =
      List.replicate font.width (pixelXfer bits bg) := by
    intro i hi
    rw [h i (List.mem_range.mp hi)]
    simp [List.map_const']
  generalize font.height = hgt at hrow ⊢
  induction hgt with
  | zero => simp
  | succ k ih =>
    rw [List.range_succ, List.flatMap_append, ih (fun i hi => hrow i (by
      rw [List.mem_range] at hi ⊢; omega))]
    simp only [List.flatMap_cons, List.flatMap_nil, List.append_nil]
    rw [hrow k (by simp), Nat.mul_succ, List.replicate_add]

theorem u16_lt (z : Int) : u16 z < 65536 := by
  unfold u16; omega

theorem u16_pred (x w : Nat) (hw : 1 ≤ w) (h : x + w ≤ 65536) :
    u16 ((x : Int) + w - 1) = x + w - 1 := by
  unfold u16; omega

theorem pixelXfer_inj (bits a b : Nat) (h : pixelXfer bits a = pixelXfer bits b) : a = b := by
  simp only [pixelXfer, Xfer.write8.injEq, List.cons.injEq, and_true, true_and] at h
  rw [← hi_lo_recombine a, ← hi_lo_recombine b]
  rw [h.1, h.2]

/-- C8: for a font at most 16 columns wide and a character whose glyph rows lie
in the font table, `writeChar` sends one address window
`(x, y, x + width - 1, y + height - 1)` (the end bounds converted to 16 bits)
and then exactly `width * height` pixels, row by row and column by column, the
pixel of row `i`, column `j` being `color` when bit `15 - j` of the row
pattern `data[(ch - 32) * height + i]` is set and `bgcolor` otherwise.  For a
blank glyph these are `width * height` copies of `bgcolor` and, when the two
colours differ, no copy of `color`. -/
theorem writeChar_stream (cfg : Config) (font : FontDef) (x y ch color bgcolor : Nat) (s : Bus)
    (hw : font.width ≤ 16) (hlo : 32 ≤ ch)
    (hhi : (ch - 32) * font.height + font.height ≤ font.data.length)
    (hlen : font.data.length < 4294967296)
    (hx : x < 65536) (hy : y < 65536) (hfg : color < 65536) (hbg : bgcolor < 65536) :
    (∃ s', writeChar cfg x y ch font color bgcolor s = some s' ∧
      s'.log = s.log ++
        [Xfer.write8 false s.bits [cfg.ST7789_CASET],
         Xfer.write8 true s.bits
           [x >>> 8, x &&& 0xFF,
            u16 ((x : Int) + font.width - 1) >>> 8, u16 ((x : Int) + font.width - 1) &&& 0xFF],
         Xfer.write8 false s.bits [cfg.ST7789_RASET],
         Xfer.write8 true s.bits
           [y >>> 8, y &&& 0xFF,
            u16 ((y : Int) + font.height - 1) >>> 8, u16 ((y : Int) + font.height - 1) &&& 0xFF],
         Xfer.write8 false s.bits [cfg.ST7789_RAMWR]] ++
        glyphStream font ch color bgcolor s.bits) ∧
    (glyphStream font ch color bgcolor s.bits).length = font.width * font.height ∧
    ((∀ i < font.height, glyphRow font ch i = 0) →
      glyphStream font ch color bgcolor s.bits =
        List.replicate (font.width * font.height) (pixelXfer s.bits bgcolor) ∧
      (color ≠ bgcolor → pixelXfer s.bits color ∉ glyphStream font ch color bgcolor s.bits)) ∧
    (1 ≤ font.width → x + font.width ≤ 65536 →
      u16 ((x : Int) + font.width - 1) = x + font.width - 1) ∧
    (1 ≤ font.height → y + font.height ≤ 65536 →
      u16 ((y : Int) + font.height - 1) = y + font.height - 1) := by
  refine ⟨?_, glyphStream_length font ch color bgcolor s.bits, ?_,
    fun h1 h2 => u16_pred x font.width h1 h2, fun h1 h2 => u16_pred y font.height h1 h2⟩
  · obtain ⟨s', hs', _, hlog⟩ := writeCharRows_log cfg ch font color bgcolor font.height 0
      (setAddressWindow cfg x y (u16 ((x : Int) + font.width - 1))
        (u16 ((y : Int) + font.height - 1)) s) hlo (by omega) hlen hw hfg hbg
    refine ⟨s', hs', ?_⟩
    rw [hlog, setAddressWindow_bits,
      (address_window_log_bytes cfg x y _ _ s hx hy (u16_lt _) (u16_lt _))]
    simp [glyphStream]
  · intro hblank
    have hrep := glyphStream_blank font ch color bgcolor s.bits hblank
    refine ⟨hrep, ?_⟩
    intro hne hmem
    rw [hrep] at hmem
    exact hne (pixelXfer_inj s.bits _ _ (List.eq_of_mem_replicate hmem))

/-- Witness for C8: the glyph of code 32 of the small font at (10, 20), red on
black, on the example board; and the blank glyph of code 33, which streams six
black pixels. -/
theorem writeChar_stream_witness :
    (∃ s', writeChar panel 10 20 32 tinyFont 0xF800 0 idleBus = some s' ∧
      s'.log =
        [Xfer.write8 false 8 [0x2A], Xfer.write8 true 8 [0, 10, 0, 12],
         Xfer.write8 false 8 [0x2B], Xfer.write8 true 8 [0, 20, 0, 21],
         Xfer.write8 false 8 [0x2C],
         Xfer.write8 true 8 [0xF8, 0], Xfer.write8 true 8 [0, 0], Xfer.write8 true 8 [0xF8, 0],
         Xfer.write8 true 8 [0, 0], Xfer.write8 true 8 [0xF8, 0], Xfer.write8 true 8 [0, 0]]) ∧
    (∀ i < tinyFont.height, glyphRow tinyFont 33 i = 0) ∧
    glyphStream tinyFont 33 0xF800 0 idleBus.bits =
      List.replicate (tinyFont.width * tinyFont.height) (pixelXfer idleBus.bits 0) := by
  refine ⟨?_, by decide, ?_⟩
  · obtain ⟨s', h1, h2⟩ := (writeChar_stream panel tinyFont 10 20 32 0xF800 0 idleBus
      (by decide) (by decide) (by decide) (by decide) (by decide) (by decide) (by decide)
      (by decide)).1
    refine ⟨s', h1, ?_⟩
    rw [h2]
    decide
  · exact ((writeChar_stream panel tinyFont 10 20 33 0xF800 0 idleBus
      (by decide) (by decide) (by decide) (by decide) (by decide) (by decide) (by decide)
      (by decide)).2.2.1 (by decide)).1

/-! ## Lines -/

theorem wrap32_id (z : Int) (hlo : -2147483648 ≤ z) (hhi : z < 2147483648) : wrap32 z = z := by
  unfold wrap32; omega

theorem lineLoop_done (steep : Bool) (x1 dx dy ystep : Int) (color : Nat) (fuel : Nat)
    (x0 y0 err : Int) (h : x1 < x0) :
    lineLoop steep x1 dx dy ystep color fuel x0 y0 err = some [] := by
  cases fuel <;> simp [lineLoop, Int.not_le.mpr h]

theorem lineLoop_flat (x1 dx ystep : Int) (color : Nat) (n fuel : Nat) (x0 y err : Int)
    (hn : x1 - x0 + 1 = n) (hfuel : n ≤ fuel) (hlo : -2147483648 ≤ x0)
    (hhi : x1 < 2147483647) (he0 : 0 ≤ err) (he1 : err < 2147483648) :
    lineLoop false x1 dx 0 ystep color fuel x0 y err =
      some ((List.range n).map (fun (i : Nat) => (⟨x0 + (i : Int), y, color⟩ : PixelCall))) := by
  induction n generalizing fuel x0 with
  | zero =>
    rw [lineLoop_done _ _ _ _ _ _ _ _ _ _ (by omega)]
    rfl
  | succ n ih =>
    obtain ⟨f, rfl⟩ : ∃ f, fuel = f + 1 := ⟨fuel - 1, by omega⟩
    have hle : x0 ≤ x1 := by omega
    have hx : wrap32 (x0 + 1) = x0 + 1 := wrap32_id _ (by omega) (by omega)
    have herr : wrap32 (err - 0) = err := by
      rw [Int.sub_zero]
      exact wrap32_id _ (by omega) he1
    have hnn : ¬ err < 0 := by omega
    simp only [lineLoop, if_pos hle, herr, if_neg hnn, hx]
    rw [ih f (x0 + 1) (by push_cast at hn ⊢; omega) (by omega) (by omega), List.range_succ_eq_map]
    simp [Int.add_assoc, Int.add_comm 1]

theorem hlinePixels_y (x0 x1 y : Int) (color : Nat) (p : PixelCall)
    (h : p ∈ hlinePixels x0 x1 y color) : p.y = y := by
  unfold hlinePixels at h
  obtain ⟨i, _, rfl⟩ := List.mem_map.mp h
  rfl

theorem c_abs_nonneg (z : Int) (h0 : 0 ≤ z) (h1 : z < 2147483648) : c_abs z = z := by
  unfold c_abs
  rw [if_neg (by omega)]
  exact wrap32_id z (by omega) h1

/-- C3, amended: for `x0 <= x1` with `x1` below `INT_MAX` and `x1 - x0`
representable as an `int`, and enough iterations, `line(x0, y, x1, y, color)`
makes exactly the calls `pixel(x0, y)`, `pixel(x0 + 1, y)`, ..., `pixel(x1, y)`
in this order, each with `color`; for `x0 = x1` that is the single call
`pixel(x0, y)`. -/
theorem line_horizontal (fuel : Nat) (x0 x1 y : Int) (color : Nat)
    (hlo : -2147483648 ≤ x0) (hle : x0 ≤ x1) (hhi : x1 < 2147483647)
    (hd : x1 - x0 ≤ 2147483647) (hfuel : x1 - x0 + 1 ≤ fuel) :
    line fuel x0 y x1 y color = some (hlinePixels x0 x1 y color) ∧
    (x0 = x1 → hlinePixels x0 x1 y color = [⟨x0, y, color⟩]) := by
  constructor
  · have hdx : wrap32 (x1 - x0) = x1 - x0 := wrap32_id _ (by omega) (by omega)
    have hb : c_abs (x1 - x0) = x1 - x0 := c_abs_nonneg _ (by omega) (by omega)
    have ha : c_abs (wrap32 (y - y)) = 0 := by
      rw [Int.sub_self]
      decide
    have hsteep : decide ((0 : Int) > x1 - x0) = false := by
      simp only [decide_eq_false_iff_not]
      omega
    have herr : Int.tdiv (x1 - x0) 2 = (x1 - x0) / 2 :=
      Int.tdiv_eq_ediv (by omega) (by decide)
    unfold line
    simp only [ite_self, ha, hdx, hb, hsteep, herr]
    exact lineLoop_flat x1 (x1 - x0) _ color (x1 - x0 + 1).toNat fuel x0 y ((x1 - x0) / 2)
      (by omega) (by omega) hlo hhi (by omega) (by omega)
  · intro h
    subst h
    simp [hlinePixels, List.range_succ]

/-- Witness for C3: `line(0, 0, 4, 0, color)` with colour 0xF800. -/
theorem line_horizontal_witness :
    line 5 0 0 4 0 0xF800 =
      some [⟨0, 0, 0xF800⟩, ⟨1, 0, 0xF800⟩, ⟨2, 0, 0xF800⟩, ⟨3, 0, 0xF800⟩, ⟨4, 0, 0xF800⟩] :=
  (line_horizontal 5 0 4 0 0xF800 (by decide) (by decide) (by decide) (by decide)
    (by decide)).1

/-- C3 as stated fails: for `x0 = INT_MIN`, `x1 = 1` (so `x0 <= x1 < INT_MAX`)
the difference `x1 - x0` wraps to a negative `dx`, the error term is negative
from the first step on, and the second call is `pixel(x0 + 1, -1)`: with no
iteration budget does `line` make the calls `(x0, 0), ..., (x1, 0)`. -/
theorem line_horizontal_overflow :
    ¬ ∃ fuel, line fuel (-2147483648) 0 1 0 0xF800 =
      some (hlinePixels (-2147483648) 1 0 0xF800) := by
  rintro ⟨fuel, h⟩
  have hy := hlinePixels_y (-2147483648) 1 0 0xF800
  generalize hlinePixels (-2147483648) 1 0 0xF800 = target at h hy
  have h4 : Int.tdiv (-2147483647) 2 = -1073741823 := by decide
  match fuel, h with
  | 0, h => simp [line, lineLoop, c_abs, wrap32, h4] at h
  | 1, h => simp [line, lineLoop, c_abs, wrap32, h4] at h
  | n + 2, h =>
    simp [line, lineLoop, c_abs, wrap32, h4] at h
    obtain ⟨ps, _, rfl⟩ := h
    have := hy ⟨-2147483647, -1, 0xF800⟩ (by simp)
    simp at this

/-! The steep and the reversed case -/

/-- C2: with enough iterations `line(0, 0, 3, 6, color)` makes four calls,
`pixel(0,0)`, `pixel(1,1)`, `pixel(2,2)`, `pixel(3,3)`, not seven (one per row
`y = 0..6`), and `line(4, 0, 0, 0, color)`, whose start lies after its end,
makes no call at all, not five. -/
theorem line_swaps_have_no_effect (fuel : Nat) (color : Nat) (hfuel : 4 ≤ fuel) :
    line fuel 0 0 3 6 color =
      some [⟨0, 0, color⟩, ⟨1, 1, color⟩, ⟨2, 2, color⟩, ⟨3, 3, color⟩] ∧
    line fuel 4 0 0 0 color = some [] := by
  obtain ⟨f, rfl⟩ : ∃ f, fuel = f + 4 := ⟨fuel - 4, by omega⟩
  have h4 : Int.tdiv 3 2 = 1 := by decide
  constructor
  · simp [line, lineLoop, c_abs, wrap32, h4, lineLoop_done]
  · unfold line
    exact lineLoop_done _ _ _ _ _ _ _ _ _ _ (by simp)

/-- Witness for C2: an iteration budget of 7. -/
theorem line_swaps_have_no_effect_witness :
    line 7 0 0 3 6 0xF800 =
      some [⟨0, 0, 0xF800⟩, ⟨1, 1, 0xF800⟩, ⟨2, 2, 0xF800⟩, ⟨3, 3, 0xF800⟩] ∧
    line 7 4 0 0 0 0xF800 = some [] :=
  line_swaps_have_no_effect 7 0xF800 (by decide)

/-! ## Strings -/

theorem layoutFrom_fits (font : FontDef) (wraps stops : Nat → Bool) (x y c : Nat)
    (rest : List Nat) (h : wraps x = false) :
    layoutFrom font wraps stops x y (c :: rest) =
      ⟨x, y, c⟩ :: layoutFrom font wraps stops (u16 ((x : Int) + font.width)) y rest := by
  cases rest <;> simp [layoutFrom, h]

/-- C9 as stated fails: on the example board, with cells 3 columns wide, the
glyph of `A` at `x = 237` would occupy columns 237..239, all below
`DISP_WIDTH = 240`, yet `writeString` draws it at `x = 0` of the next line. -/
theorem writeString_wraps_a_fitting_glyph :
    (tinyFont.width : Int) < panel.DISP_WIDTH ∧
    writeString panel tinyFont 237 0 [65] = [⟨0, 2, 65⟩] ∧
    exceedLayout panel tinyFont 237 0 (cString [65]) = [⟨237, 0, 65⟩] := by
  decide

/-- C9, amended: for a font narrower than the display, the `writeChar` calls
of `writeString` are the layout in which a character goes to a new line
(`x = 0`, `y` advanced by the cell height) exactly when
`x + width >= DISP_WIDTH`, a space at such a wrap is consumed undrawn (the
character after it is drawn at `x = 0`), and output ends once the new line has
`y + height >= DISP_HEIGHT`. -/
theorem writeString_layout (cfg : Config) (font : FontDef) (x y : Nat) (str : List Nat)
    (hw : (font.width : Int) < cfg.DISP_WIDTH) :
    writeString cfg font x y str = reachLayout cfg font x y (cString str) := by
  have hzero : decide (((0 : Nat) : Int) + font.width ≥ cfg.DISP_WIDTH) = false := by
    simp only [decide_eq_false_iff_not]
    omega
  induction str generalizing x y with
  | nil => simp [writeString, cString, reachLayout, layoutFrom]
  | cons c str ih =>
    by_cases hc : c = 0
    · simp [writeString, cString, reachLayout, layoutFrom, hc]
    · have hcs : cString (c :: str) = c :: cString str := by
        simp [cString, List.takeWhile_cons, hc]
      rw [hcs]
      by_cases hwrap : (x : Int) + font.width ≥ cfg.DISP_WIDTH
      · by_cases hstop : ((u16 ((y : Int) + font.height) : Nat) : Int) + font.height
            ≥ cfg.DISP_HEIGHT
        · cases hrest : cString str <;>
            simp [writeString, reachLayout, layoutFrom, hc, hwrap, hstop]
        · by_cases hsp : c = 32
          · have hrec := ih 0 (u16 ((y : Int) + font.height))
            simp only [writeString, if_neg hc, if_pos hwrap, if_neg hstop, if_pos hsp]
            rw [hrec]
            cases hrest : cString str with
            | nil => simp [reachLayout, layoutFrom, hwrap, hstop, hsp]
            | cons d rest =>
              unfold reachLayout
              rw [layoutFrom_fits _ _ _ _ _ _ _ hzero]
              simp [layoutFrom, hwrap, hstop, hsp]
          · have hrec := ih (u16 (((0 : Nat) : Int) + font.width)) (u16 ((y : Int) + font.height))
            simp only [writeString, if_neg hc, if_pos hwrap, if_neg hstop, if_neg hsp]
            rw [hrec]
            cases hrest : cString str <;>
              simp [reachLayout, layoutFrom, hwrap, hstop, hsp]
      · have hrec := ih (u16 ((x : Int) + font.width)) y
        simp only [writeString, if_neg hc, if_neg hwrap]
        rw [hrec]
        unfold reachLayout
        rw [layoutFrom_fits _ _ _ _ _ _ _ (by simpa using hwrap)]

/-- Witness for C9: `A`, two spaces and `B` from `x = 234` on the example
board; the first space wraps and is dropped, the second is drawn at `x = 0`. -/
theorem writeString_layout_witness :
    (tinyFont.width : Int) < panel.DISP_WIDTH ∧
    reachLayout panel tinyFont 234 0 (cString [65, 32, 32, 66]) =
      [⟨234, 0, 65⟩, ⟨0, 2, 32⟩, ⟨3, 2, 66⟩] ∧
    writeString panel tinyFont 234 0 [65, 32, 32, 66] =
      reachLayout panel tinyFont 234 0 (cString [65, 32, 32, 66]) :=
  ⟨by decide, by decide, writeString_layout panel tinyFont 234 0 [65, 32, 32, 66] (by decide)⟩

end ST7789
